import Mathlib

/-!
Verification of the jsonl-viewer core (src/app.go) against its specification.

Go strings are modelled as `List Char` (the source only manipulates them at
ASCII granularity), Go's `map[string]interface{}` record content as an
association list that remembers the key order of the source line, and JSON
values produced by `json.Unmarshal` as the inductive `JSONValue` (numbers are
restricted to the integer-valued floats whose `%v` rendering is their decimal
notation; nested arrays/objects are outside the fragment the claims touch).
Recursive source functions whose Go termination argument is "the string gets
shorter" are embedded with an explicit fuel parameter so that every definition
computes by `rfl`/`decide`; a fuel-adequacy lemma recovers the fuel-free
unfolding equations.
-/

/-- A Go string, at character granularity. -/
abbrev GoStr := List Char

/-- Characters treated as whitespace by `strings.TrimSpace` (ASCII fragment of
`unicode.IsSpace`). -/
def goIsSpace (c : Char) : Bool :=
  c = ' ' || c = '\t' || c = '\n' || c = '\r' || c = '\x0b' || c = '\x0c'

/-- `strings.TrimSpace`: drop leading and trailing whitespace. -/
def goTrim (s : GoStr) : GoStr :=
  ((s.dropWhile goIsSpace).reverse.dropWhile goIsSpace).reverse

/-- `strings.ToLower` (ASCII fragment). -/
def goToLower (s : GoStr) : GoStr := s.map Char.toLower

/-- `strings.Contains s sub`: `sub` occurs as a contiguous substring of `s`
(the empty string occurs in every string). -/
def goContainsSub (s sub : GoStr) : Bool :=
  match s with
  | [] => sub.isEmpty
  | _ :: rest => sub.isPrefixOf s || goContainsSub rest sub

/-- Fuelled worker for `strings.Split`: split `s` at every leftmost,
non-overlapping occurrence of `sep`. The fuel only needs to cover `s.length`;
the `0` arm is unreachable at that fuel. -/
def goSplitOnFuel (sep : GoStr) : Nat → GoStr → List GoStr
  | _, [] => [[]]
  | 0, s => [s]
  | n + 1, c :: rest =>
    if sep ≠ [] ∧ sep.isPrefixOf (c :: rest) then
      [] :: goSplitOnFuel sep n (List.drop sep.length (c :: rest))
    else
      match goSplitOnFuel sep n rest with
      | [] => [[c]]
      | p :: ps => (c :: p) :: ps

/-- `strings.Split s sep` (for the non-empty separators the source uses). -/
def goSplitOn (sep s : GoStr) : List GoStr := goSplitOnFuel sep s.length s

/-- `strings.SplitN s sep 2`: split at the first occurrence of `sep` only. -/
def goSplitN2 (sep : GoStr) : GoStr → List GoStr
  | [] => [[]]
  | c :: rest =>
    if sep ≠ [] ∧ sep.isPrefixOf (c :: rest) then
      [[], List.drop sep.length (c :: rest)]
    else
      match goSplitN2 sep rest with
      | [] => [[c]]
      | p :: ps => (c :: p) :: ps

/-- One JSON value as decoded by `json.Unmarshal` into `interface{}`
(fragment: strings, integer-valued numbers, booleans, null). -/
inductive JSONValue where
  | str (s : GoStr)
  | num (n : Int)
  | boolean (b : Bool)
  | null
deriving DecidableEq, Repr

/-- `fmt.Sprintf "%v"` on a decoded JSON value: strings print verbatim,
integer-valued `float64`s print their decimal digits, booleans print
`true`/`false`, and a nil interface prints `<nil>`. -/
def goFormatV : JSONValue → GoStr
  | .str s => s
  | .num n => (toString n).toList
  | .boolean true => ("true").toList
  | .boolean false => ("false").toList
  | .null => ("<nil>").toList

/-- `JSONRecord` (src/app.go:120-125): one parsed line. `content` keeps the
key order of the source text so that order claims are expressible; Go's map
loses it, which is visible wherever the code serialises a map. -/
structure JSONRecord where
  lineNumber : Int
  content : List (GoStr × JSONValue)
  rawJSON : GoStr
deriving DecidableEq, Repr

/-- Go map lookup `record.Content[field]` over the association list. -/
def lookupField : List (GoStr × JSONValue) → GoStr → Option JSONValue
  | [], _ => none
  | (k, v) :: rest, f => if k = f then some v else lookupField rest f

/-- `LuceneQuery` (src/app.go:128-135): the compiled query tree. The `null`
constructor stands for a nil `*LuceneQuery`. `field`/`phrase`/`wildcard`/`term`
carry the struct's `Field` (empty = absent) and `Value` strings. -/
inductive LuceneQuery where
  | null
  | and (l r : LuceneQuery)
  | or (l r : LuceneQuery)
  | not (q : LuceneQuery)
  | field (f v : GoStr)
  | phrase (f v : GoStr)
  | wildcard (f v : GoStr)
  | term (f v : GoStr)
deriving DecidableEq, Repr

/-- The literal operator separator `" OR "`. -/
def orSepStr : GoStr := (" OR ").toList

/-- The literal operator separator `" AND "`. -/
def andSepStr : GoStr := (" AND ").toList

/-- The literal operator marker `"NOT "`. -/
def notMarkStr : GoStr := ("NOT ").toList

/-- The Go loop `left = parse(parts[0]); for i ≥ 1: left = Op(left, parse(parts[i]))`
(src/app.go:1157-1167 and 1175-1185), abstracted over the node constructor. -/
def leftAssocFold (mk : LuceneQuery → LuceneQuery → LuceneQuery) :
    List LuceneQuery → LuceneQuery
  | [] => .null
  | x :: xs => xs.foldl mk x

/-- Atom classification, src/app.go:1197-1250: `field:value` syntax first
(quoted phrase / wildcard / plain field term), then unqualified quoted phrase,
wildcard, and the default term. -/
def parseAtom (q : GoStr) : LuceneQuery :=
  if goContainsSub q [':'] then
    match goSplitN2 [':'] q with
    | [fpart, vpart] =>
      let field := goTrim fpart
      let value := goTrim vpart
      if ['"'].isPrefixOf value ∧ ['"'].isPrefixOf value.reverse ∧ 1 < value.length then
        .phrase field (value.drop 1).dropLast
      else if value.contains '*' || value.contains '?' then
        .wildcard field value
      else
        .field field value
    | _ => parseAtomRest q
  else parseAtomRest q
where
  /-- src/app.go:1230-1250: the atom cases after the `field:value` check. -/
  parseAtomRest (q : GoStr) : LuceneQuery :=
    if ['"'].isPrefixOf q ∧ ['"'].isPrefixOf q.reverse ∧ 1 < q.length then
      .phrase [] (q.drop 1).dropLast
    else if q.contains '*' || q.contains '?' then
      .wildcard [] q
    else
      .term [] q

/-- Fuelled worker for `parseLuceneQuery` (src/app.go:1146-1251). The Go
function recurses on strictly shorter strings; fuel `s.length + 1` suffices
(`parseLuceneQueryFuel_congr`). The `0` arm is unreachable at that fuel. -/
def parseLuceneQueryFuel : Nat → GoStr → LuceneQuery
  | 0, _ => .null
  | n + 1, query =>
    if goTrim query = [] then .null
    else
      let q := goTrim query
      if goContainsSub q orSepStr && decide (2 ≤ (goSplitOn orSepStr q).length) then
        leftAssocFold .or
          ((goSplitOn orSepStr q).map (fun p => parseLuceneQueryFuel n (goTrim p)))
      else if goContainsSub q andSepStr && decide (2 ≤ (goSplitOn andSepStr q).length) then
        leftAssocFold .and
          ((goSplitOn andSepStr q).map (fun p => parseLuceneQueryFuel n (goTrim p)))
      else if notMarkStr.isPrefixOf q then
        .not (parseLuceneQueryFuel n (goTrim (q.drop 4)))
      else parseAtom q

/-- `parseLuceneQuery` (src/app.go:1146-1251); `.null` is the nil result. -/
def parseLuceneQuery (query : GoStr) : LuceneQuery :=
  parseLuceneQueryFuel (query.length + 1) query

/-- `matchFieldValue` (src/app.go:1313-1328): nil interface short-circuits to
false, otherwise case-fold both sides per the flag and test substring
containment. -/
def matchFieldValue (fieldValue : JSONValue) (searchValue : GoStr)
    (caseSensitive : Bool) : Bool :=
  match fieldValue with
  | .null => false
  | v =>
    let fieldStr := goFormatV v
    let searchStr := if caseSensitive then searchValue else goToLower searchValue
    let targetStr := if caseSensitive then fieldStr else goToLower fieldStr
    goContainsSub targetStr searchStr

/-- `matchPhrase` (src/app.go:1331-1345): empty text never matches; otherwise
case-folded substring containment. -/
def matchPhrase (text phrase : GoStr) (caseSensitive : Bool) : Bool :=
  if text = [] then false
  else
    let searchStr := if caseSensitive then phrase else goToLower phrase
    let targetStr := if caseSensitive then text else goToLower text
    goContainsSub targetStr searchStr

/-- `matchTerm` (src/app.go:1401-1415): identical shape to `matchPhrase`. -/
def matchTerm (text term : GoStr) (caseSensitive : Bool) : Bool :=
  if text = [] then false
  else
    let searchStr := if caseSensitive then term else goToLower term
    let targetStr := if caseSensitive then text else goToLower text
    goContainsSub targetStr searchStr

/-- `simpleWildcardMatch` (src/app.go:1371-1398): `*` alone matches anything;
a pattern with no `*` and no `?` is plain containment; `*p*` / `*p` / `p*`
are contains / suffix / prefix; anything else falls back to containment of the
pattern with its `*`s deleted. `?` is never given wildcard meaning. -/
def simpleWildcardMatch (text pattern : GoStr) : Bool :=
  if pattern = ['*'] then true
  else if !pattern.contains '*' && !pattern.contains '?' then
    goContainsSub text pattern
  else if ['*'].isPrefixOf pattern && ['*'].isPrefixOf pattern.reverse then
    goContainsSub text (pattern.drop 1).dropLast
  else if ['*'].isPrefixOf pattern then
    (pattern.drop 1).isSuffixOf text
  else if ['*'].isPrefixOf pattern.reverse then
    pattern.dropLast.isPrefixOf text
  else
    goContainsSub text (pattern.filter (fun c => c ≠ '*'))

/-- `matchWildcard` (src/app.go:1348-1368): empty text never matches; both
sides are case-folded per the flag and handed to `simpleWildcardMatch` (the
regex translation in the source is computed but unused). -/
def matchWildcard (text pattern : GoStr) (caseSensitive : Bool) : Bool :=
  if text = [] then false
  else
    let searchStr := if caseSensitive then pattern else goToLower pattern
    let targetStr := if caseSensitive then text else goToLower text
    simpleWildcardMatch targetStr searchStr

/-- `evaluateLuceneQuery` (src/app.go:1254-1310): nil query is false; `and`,
`or`, `not` recurse; leaves with a `Field` look the key up in the record's
content (absent key is false), leaves without a `Field` run against the raw
line text. -/
def evaluateLuceneQuery (query : LuceneQuery) (record : JSONRecord)
    (caseSensitive : Bool) : Bool :=
  match query with
  | .null => false
  | .and l r =>
    evaluateLuceneQuery l record caseSensitive &&
      evaluateLuceneQuery r record caseSensitive
  | .or l r =>
    evaluateLuceneQuery l record caseSensitive ||
      evaluateLuceneQuery r record caseSensitive
  | .not q => !evaluateLuceneQuery q record caseSensitive
  | .field f v =>
    match lookupField record.content f with
    | some fieldValue => matchFieldValue fieldValue v caseSensitive
    | none => false
  | .phrase f v =>
    if f ≠ [] then
      match lookupField record.content f with
      | some fieldValue => matchPhrase (goFormatV fieldValue) v caseSensitive
      | none => false
    else matchPhrase record.rawJSON v caseSensitive
  | .wildcard f v =>
    if f ≠ [] then
      match lookupField record.content f with
      | some fieldValue => matchWildcard (goFormatV fieldValue) v caseSensitive
      | none => false
    else matchWildcard record.rawJSON v caseSensitive
  | .term f v =>
    if f ≠ [] then
      match lookupField record.content f with
      | some fieldValue => matchFieldValue fieldValue v caseSensitive
      | none => false
    else matchTerm record.rawJSON v caseSensitive

/-- `recordMatches` (src/app.go:1120-1143): substring search over the raw line
(folded per the flag) and then over each field value; the query argument is
folded by the caller, not here. -/
def recordMatches (record : JSONRecord) (query : GoStr)
    (caseSensitive : Bool) : Bool :=
  let searchText := if caseSensitive then record.rawJSON
    else goToLower record.rawJSON
  if goContainsSub searchText query then true
  else
    record.content.any (fun p =>
      goContainsSub
        (if caseSensitive then goFormatV p.2 else goToLower (goFormatV p.2))
        query)

/-- `SearchOptions` (src/app.go struct): the request the search gateway takes. -/
structure SearchOptions where
  query : GoStr
  caseSensitive : Bool
  offset : Int
  limit : Int
  useLucene : Bool
  selectedField : GoStr
deriving DecidableEq, Repr

/-- `SearchResult` (src/app.go struct): the page the search gateway returns. -/
structure SearchResult where
  records : List JSONRecord
  offset : Int
  limit : Int
  total : Nat
  totalMatches : Nat
  hasMore : Bool
  query : GoStr
deriving DecidableEq, Repr

/-- The match-collection phase of `SearchRecords` (src/app.go:1044-1082): the
Lucene path filters by `evaluateLuceneQuery` when the compiled query is
non-nil and collects nothing when it is nil; the traditional path folds the
query (caller side) and uses field-specific or whole-record matching. -/
def searchMatchingRecords (store : List JSONRecord) (opts : SearchOptions) :
    List JSONRecord :=
  if opts.useLucene then
    match parseLuceneQuery opts.query with
    | .null => []
    | t => store.filter (fun r => evaluateLuceneQuery t r opts.caseSensitive)
  else
    let query := if opts.caseSensitive then opts.query else goToLower opts.query
    store.filter (fun r =>
      if opts.selectedField ≠ [] ∧ opts.selectedField ≠ ("all").toList then
        match lookupField r.content opts.selectedField with
        | some fv => matchFieldValue fv opts.query opts.caseSensitive
        | none => false
      else recordMatches r query opts.caseSensitive)

/-- `SearchRecords` (src/app.go:1012-1117) over a loaded store (`totalCount`
is the store length at load, src/app.go:463): blank query short-circuits to an
empty result with zero totals; otherwise offset/limit are clamped, matches are
collected in store order, and the offset/limit window is cut out of them. -/
def searchRecords (store : List JSONRecord) (opts : SearchOptions) :
    SearchResult :=
  if goTrim opts.query = [] then
    ⟨[], opts.offset, opts.limit, 0, 0, false, opts.query⟩
  else
    let offset : Int := if opts.offset < 0 then 0 else opts.offset
    let limit : Int := if opts.limit ≤ 0 then 50 else opts.limit
    let limit : Int := if limit > 1000 then 1000 else limit
    let matching := searchMatchingRecords store
      { opts with offset := offset, limit := limit }
    let totalMatches := matching.length
    if offset ≥ (totalMatches : Int) then
      ⟨[], offset, limit, store.length, totalMatches, false, opts.query⟩
    else
      let endIndex : Int := min (offset + limit) (totalMatches : Int)
      ⟨(matching.drop offset.toNat).take (endIndex - offset).toNat,
        offset, limit, store.length, totalMatches,
        decide (endIndex < (totalMatches : Int)), opts.query⟩

/-- `PaginatedRecords` (src/app.go struct). -/
structure PaginatedRecords where
  records : List JSONRecord
  offset : Int
  limit : Int
  total : Nat
  hasMore : Bool
deriving DecidableEq, Repr

/-- `GetRecords` (src/app.go:600-643) over a loaded store: clamp offset to
`≥ 0` and limit to `(0, 1000]` (default `pageSize`), return an empty page with
`hasMore = false` when the offset is past the end, else slice. -/
def getRecords (store : List JSONRecord) (pageSize : Int)
    (offset limit : Int) : PaginatedRecords :=
  let offset : Int := if offset < 0 then 0 else offset
  let limit : Int := if limit ≤ 0 then pageSize else limit
  let limit : Int := if limit > 1000 then 1000 else limit
  let totalRecords := store.length
  if offset ≥ (totalRecords : Int) then
    ⟨[], offset, limit, totalRecords, false⟩
  else
    let endIndex : Int := min (offset + limit) (totalRecords : Int)
    ⟨(store.drop offset.toNat).take (endIndex - offset).toNat,
      offset, limit, totalRecords,
      decide (endIndex < (totalRecords : Int))⟩

/-- The sentinel errors of src/app.go:113-118. -/
inductive ErrSentinel where
  | invalidJSONL
  | fileNotFound
  | clipboardEmpty
  | parsingFailed
  | invalidLineNum
  | noFileLoaded
deriving DecidableEq, Repr

/-- `JSONLError` (src/app.go struct): message plus wrapped sentinel. -/
structure JSONLError where
  message : GoStr
  lineNumber : Int
  err : ErrSentinel
deriving DecidableEq, Repr

/-- `GetRecordByLineNumber` (src/app.go:646-674) over a loaded store:
non-positive line numbers fail before any lookup; a linear scan returns the
first record with the requested line number; a search with no hit fails with a
"Record not found" message wrapping the same `invalidLineNum` sentinel. -/
def getRecordByLineNumber (store : List JSONRecord) (lineNumber : Int) :
    Except JSONLError JSONRecord :=
  if lineNumber ≤ 0 then
    .error ⟨("Line number must be greater than 0").toList, lineNumber,
      .invalidLineNum⟩
  else
    match store.find? (fun r => r.lineNumber = lineNumber) with
    | some r => .ok r
    | none =>
      .error ⟨("Record not found at specified line number").toList, lineNumber,
        .invalidLineNum⟩

/-- One field-count increment per key per record, as both `ParseJSONL`
(src/app.go:241-244) and `GetCommonFields` (src/app.go:1512-1517) accumulate
them. -/
def fieldOccurrences (records : List JSONRecord) : List GoStr :=
  records.flatMap (fun r => r.content.map Prod.fst)

/-- The occurrence count of one field name across the records. -/
def countField (records : List JSONRecord) (f : GoStr) : Nat :=
  (fieldOccurrences records).count f

/-- The common-fields computation shared by `ParseJSONL` (src/app.go:264-271)
and `GetCommonFields` (src/app.go:1519-1526): every field seen at least once
whose count reaches the integer-division threshold `len(records) / 2`. -/
def getCommonFields (records : List JSONRecord) : List GoStr :=
  (fieldOccurrences records).dedup.filter
    (fun f => records.length / 2 ≤ countField records f)

/-- Byte-order (here: character-order) strict comparison of Go strings, the
order `encoding/json` sorts map keys by. -/
def lexLt : GoStr → GoStr → Bool
  | [], [] => false
  | [], _ :: _ => true
  | _ :: _, [] => false
  | a :: as, b :: bs => if a < b then true else if b < a then false else lexLt as bs

/-- Insert one key/value pair into a key-sorted list. -/
def insertPairSorted (p : GoStr × JSONValue) :
    List (GoStr × JSONValue) → List (GoStr × JSONValue)
  | [] => [p]
  | q :: rest => if lexLt q.1 p.1 then q :: insertPairSorted p rest else p :: q :: rest

/-- Sort pairs by key, ascending — `encoding/json`'s map-key ordering. -/
def sortPairsByKey (l : List (GoStr × JSONValue)) : List (GoStr × JSONValue) :=
  l.foldr insertPairSorted []

/-- `encoding/json` string escaping (the fragment the modelled values use:
quote, backslash, the common control characters, and the HTML-escaped set). -/
def jsonEscapeChar (c : Char) : GoStr :=
  if c = '"' then ['\\', '"']
  else if c = '\\' then ['\\', '\\']
  else if c = '\n' then ['\\', 'n']
  else if c = '\t' then ['\\', 't']
  else if c = '\r' then ['\\', 'r']
  else if c = '<' then ("\\u003c").toList
  else if c = '>' then ("\\u003e").toList
  else if c = '&' then ("\\u0026").toList
  else [c]

/-- A JSON string literal as `encoding/json` writes it. -/
def jsonQuote (s : GoStr) : GoStr :=
  '"' :: (s.flatMap jsonEscapeChar) ++ ['"']

/-- One JSON value as `json.Marshal` writes it. -/
def marshalValue : JSONValue → GoStr
  | .str s => jsonQuote s
  | .num n => (toString n).toList
  | .boolean true => ("true").toList
  | .boolean false => ("false").toList
  | .null => ("null").toList

/-- `json.Marshal` of a `map[string]interface{}`: members in ascending key
order, single line. -/
def marshalObj (pairs : List (GoStr × JSONValue)) : GoStr :=
  '\x7b' ::
    (List.intercalate [',']
      ((sortPairsByKey pairs).map (fun p => jsonQuote p.1 ++ ':' :: marshalValue p.2)))
    ++ ['\x7d']

/-- Go map insert `m[k] = v`: replace the existing key or append. -/
def mapInsert (m : List (GoStr × JSONValue)) (k : GoStr) (v : JSONValue) :
    List (GoStr × JSONValue) :=
  match m with
  | [] => [(k, v)]
  | (k', v') :: rest =>
    if k' = k then (k, v) :: rest else (k', v') :: mapInsert rest k v

/-- The `filteredContent` map built by the show branch of `getDisplayJSON`
(src/app.go:1887-1893): walk `shownFields`, copying each field that exists in
the record's content. -/
def filteredShownMap (content : List (GoStr × JSONValue)) (shown : List GoStr) :
    List (GoStr × JSONValue) :=
  shown.foldl
    (fun m f =>
      match lookupField content f with
      | some v => mapInsert m f v
      | none => m)
    []

/-- The `filteredContent` map built by the hide branch of `getDisplayJSON`
(src/app.go:1894-1908): keep every content entry whose key is not hidden. -/
def filteredHiddenMap (content : List (GoStr × JSONValue)) (hidden : List GoStr) :
    List (GoStr × JSONValue) :=
  content.filter (fun p => !hidden.contains p.1)

/-- `getDisplayJSON` (src/app.go:1878-1920): no visibility configured returns
the raw line; a non-empty show list wins over hide; the filtered map is then
re-marshalled (key-sorted) into a single JSON line. -/
def getDisplayJSON (record : JSONRecord) (shownFields hiddenFields : List GoStr) :
    GoStr :=
  if shownFields.length = 0 ∧ hiddenFields.length = 0 then record.rawJSON
  else
    marshalObj
      (if 0 < shownFields.length then filteredShownMap record.content shownFields
       else filteredHiddenMap record.content hiddenFields)

/-- The per-record inclusion decision of `GetAllRecords` (src/app.go:1847-1863),
the match set `ExportSearchResults` exports: an empty query keeps everything; a
query that compiles to a non-nil tree is evaluated with `caseSensitive = false`
hardcoded; a nil compilation falls back to the simple substring search, also
with `caseSensitive = false` (and with the query string unfolded). -/
def getAllRecordsIncluded (searchQuery : GoStr) (record : JSONRecord) : Bool :=
  if searchQuery ≠ [] then
    match parseLuceneQuery searchQuery with
    | .null => recordMatches record searchQuery false
    | t => evaluateLuceneQuery t record false
  else true

/-- `GetAllRecords` (src/app.go:1806-1875) restricted to its filtering payload:
the records re-parsed from the file, kept per `getAllRecordsIncluded`. -/
def getAllRecords (fileRecords : List JSONRecord) (searchQuery : GoStr) :
    List JSONRecord :=
  fileRecords.filter (getAllRecordsIncluded searchQuery)

/-- The case-folding both sides of every matcher undergo when the search is
case-insensitive (src/app.go:1322-1325 and analogues). -/
def goCaseFold (caseSensitive : Bool) (s : GoStr) : GoStr :=
  if caseSensitive then s else goToLower s

/-- Sample record `{"name":"John Doe","age":30}` on line 1. -/
def recJohnDoe : JSONRecord :=
  ⟨1, [(("name").toList, .str (("John Doe").toList)),
      (("age").toList, .num 30)],
    ("\x7b\"name\":\"John Doe\",\"age\":30\x7d").toList⟩

/-- Sample record `{"f":"abc"}` on line 1. -/
def recABC : JSONRecord :=
  ⟨1, [(("f").toList, .str (("abc").toList))],
    ("\x7b\"f\":\"abc\"\x7d").toList⟩

/-- Sample record `{"a":null}` on line 1. -/
def recNullA : JSONRecord :=
  ⟨1, [(("a").toList, JSONValue.null)], ("\x7b\"a\":null\x7d").toList⟩

/-- Sample record `{"b":2,"a":1}` on line 1: keys out of alphabetical order. -/
def recBA : JSONRecord :=
  ⟨1, [(("b").toList, .num 2), (("a").toList, .num 1)],
    ("\x7b\"b\":2,\"a\":1\x7d").toList⟩

/-- Sample record `{"a":1,"b":2,"c":3}` on line 1. -/
def recNums3 : JSONRecord :=
  ⟨1, [(("a").toList, .num 1), (("b").toList, .num 2),
      (("c").toList, .num 3)],
    ("\x7b\"a\":1,\"b\":2,\"c\":3\x7d").toList⟩

/-- Sample record `{"a": 1}` on line 1 (raw text contains a space). -/
def recSpace : JSONRecord :=
  ⟨1, [(("a").toList, .num 1)], ("\x7b\"a\": 1\x7d").toList⟩

/-- Sample record `{"name":"john"}` on line 1 (lower-case value). -/
def recLowJohn : JSONRecord :=
  ⟨1, [(("name").toList, .str (("john").toList))],
    ("\x7b\"name\":\"john\"\x7d").toList⟩

/-- Three sample records in which field `x` occurs once (one third of the
records) and field `y` in all three. -/
def cfRecords : List JSONRecord :=
  [⟨1, [(("x").toList, .num 1), (("y").toList, .num 1)], ("r1").toList⟩,
   ⟨2, [(("y").toList, .num 2)], ("r2").toList⟩,
   ⟨3, [(("y").toList, .num 3)], ("r3").toList⟩]


theorem goTrim_length_le (s : GoStr) : (goTrim s).length ≤ s.length := by
  have h1 : ((s.dropWhile goIsSpace).reverse.dropWhile goIsSpace).length ≤
      (s.dropWhile goIsSpace).reverse.length :=
    (List.dropWhile_sublist _).length_le
  have h2 : (s.dropWhile goIsSpace).length ≤ s.length :=
    (List.dropWhile_sublist _).length_le
  simp only [goTrim, List.length_reverse] at *
  omega

theorem isPrefixOf_length_le {a b : GoStr} (h : a.isPrefixOf b) :
    a.length ≤ b.length :=
  (List.isPrefixOf_iff_prefix.mp h).length_le

theorem goSplitOnFuel_ne_nil (sep : GoStr) (n : Nat) (s : GoStr) :
    goSplitOnFuel sep n s ≠ [] := by
  match n, s with
  | _, [] => simp [goSplitOnFuel]
  | 0, c :: rest => simp [goSplitOnFuel]
  | n + 1, c :: rest =>
    simp only [goSplitOnFuel]
    split
    · simp
    · split <;> simp

theorem length_le_of_mem_goSplitOnFuel (sep : GoStr) :
    ∀ (n : Nat) (s p : GoStr), s.length ≤ n → p ∈ goSplitOnFuel sep n s →
      p.length ≤ s.length := by
  intro n
  induction n with
  | zero =>
    intro s p hle hmem
    cases s with
    | nil => simp [goSplitOnFuel] at hmem; simp [hmem]
    | cons c rest => simp at hle
  | succ n ih =>
    intro s p hle hmem
    cases s with
    | nil => simp [goSplitOnFuel] at hmem; simp [hmem]
    | cons c rest =>
      simp only [goSplitOnFuel] at hmem
      split at hmem
      · next hcond =>
        have hsep : 1 ≤ sep.length := List.length_pos.mpr hcond.1
        simp only [List.length_cons] at hle
        rcases List.mem_cons.mp hmem with h1 | h1
        · simp [h1]
        · have hlen : (List.drop sep.length (c :: rest)).length ≤ n := by
            simp only [List.length_drop, List.length_cons]
            omega
          have := ih _ _ hlen h1
          simp only [List.length_drop, List.length_cons] at this ⊢
          omega
      · next hcond =>
        rcases heq : goSplitOnFuel sep n rest with _ | ⟨p0, ps⟩
        · rw [heq] at hmem
          simp at hmem
          simp [hmem]
        · rw [heq] at hmem
          simp only [List.length_cons] at hle
          rcases List.mem_cons.mp hmem with h1 | h1
          · have hmem0 : p0 ∈ goSplitOnFuel sep n rest := by
              rw [heq]; exact List.mem_cons_self _ _
            have := ih rest p0 (by omega) hmem0
            simp [h1]
            omega
          · have hmem1 : p ∈ goSplitOnFuel sep n rest := by
              rw [heq]; exact List.mem_cons_of_mem _ h1
            have := ih rest p (by omega) hmem1
            simp only [List.length_cons]
            omega

theorem length_add_sep_of_mem_goSplitOnFuel (sep : GoStr) :
    ∀ (n : Nat) (s p : GoStr), s.length ≤ n →
      2 ≤ (goSplitOnFuel sep n s).length → p ∈ goSplitOnFuel sep n s →
      p.length + sep.length ≤ s.length := by
  intro n
  induction n with
  | zero =>
    intro s p hle h2 hmem
    cases s with
    | nil => simp [goSplitOnFuel] at h2
    | cons c rest => simp at hle
  | succ n ih =>
    intro s p hle h2 hmem
    cases s with
    | nil => simp [goSplitOnFuel] at h2
    | cons c rest =>
      simp only [goSplitOnFuel] at h2 hmem
      split at hmem
      · next hcond =>
        rw [if_pos hcond] at h2
        have hsep : sep.length ≤ (c :: rest).length := isPrefixOf_length_le hcond.2
        simp only [List.length_cons] at hle hsep
        rcases List.mem_cons.mp hmem with h1 | h1
        · simp only [h1, List.length_nil, List.length_cons]
          omega
        · have hlen : (List.drop sep.length (c :: rest)).length ≤ n := by
            simp only [List.length_drop, List.length_cons]
            have : 1 ≤ sep.length := List.length_pos.mpr hcond.1
            omega
          have := length_le_of_mem_goSplitOnFuel sep n _ p hlen h1
          simp only [List.length_drop, List.length_cons] at this ⊢
          omega
      · next hcond =>
        rw [if_neg hcond] at h2
        simp only [List.length_cons] at hle
        rcases heq : goSplitOnFuel sep n rest with _ | ⟨p0, ps⟩
        · rw [heq] at hmem
          simp at hmem
          rw [heq] at h2
          simp at h2
        · rw [heq] at hmem h2
          have h2' : 2 ≤ (goSplitOnFuel sep n rest).length := by
            rw [heq]
            simp only [List.length_cons] at h2 ⊢
            omega
          rcases List.mem_cons.mp hmem with h1 | h1
          · have hmem0 : p0 ∈ goSplitOnFuel sep n rest := by
              rw [heq]; exact List.mem_cons_self _ _
            have := ih rest p0 (by omega) h2' hmem0
            simp only [h1, List.length_cons]
            omega
          · have hmem1 : p ∈ goSplitOnFuel sep n rest := by
              rw [heq]; exact List.mem_cons_of_mem _ h1
            have := ih rest p (by omega) h2' hmem1
            simp only [List.length_cons]
            omega

theorem two_le_goSplitOnFuel_of_contains (sep : GoStr) (hsep : sep ≠ []) :
    ∀ (n : Nat) (s : GoStr), s.length ≤ n → goContainsSub s sep = true →
      2 ≤ (goSplitOnFuel sep n s).length := by
  intro n
  induction n with
  | zero =>
    intro s hle hc
    cases s with
    | nil => simp [goContainsSub, List.isEmpty_iff, hsep] at hc
    | cons c rest => simp at hle
  | succ n ih =>
    intro s hle hc
    cases s with
    | nil => simp [goContainsSub, List.isEmpty_iff, hsep] at hc
    | cons c rest =>
      simp only [goContainsSub, Bool.or_eq_true] at hc
      simp only [List.length_cons] at hle
      simp only [goSplitOnFuel]
      rcases hc with hpre | hrest
      · rw [if_pos ⟨hsep, hpre⟩]
        have := goSplitOnFuel_ne_nil sep n (List.drop sep.length (c :: rest))
        have hpos := List.length_pos.mpr this
        simp only [List.length_cons]
        omega
      · by_cases hcond : sep ≠ [] ∧ sep.isPrefixOf (c :: rest)
        · rw [if_pos hcond]
          have := goSplitOnFuel_ne_nil sep n (List.drop sep.length (c :: rest))
          have hpos := List.length_pos.mpr this
          simp only [List.length_cons]
          omega
        · rw [if_neg hcond]
          have h2 := ih rest (by omega) hrest
          rcases heq : goSplitOnFuel sep n rest with _ | ⟨p0, ps⟩
          · exact absurd heq (goSplitOnFuel_ne_nil sep n rest)
          · rw [heq] at h2
            simp only [List.length_cons] at h2 ⊢
            omega

theorem orSepStr_length : orSepStr.length = 4 := rfl

theorem andSepStr_length : andSepStr.length = 5 := rfl

theorem notMarkStr_length : notMarkStr.length = 4 := rfl

theorem parseLuceneQueryFuel_congr :
    ∀ (n m : Nat) (s : GoStr), s.length < n → s.length < m →
      parseLuceneQueryFuel n s = parseLuceneQueryFuel m s := by
  intro n
  induction n with
  | zero => intro m s h1 _; exact absurd h1 (Nat.not_lt_zero _)
  | succ n ih =>
    intro m s h1 h2
    cases m with
    | zero => exact absurd h2 (Nat.not_lt_zero _)
    | succ m =>
      simp only [parseLuceneQueryFuel]
      by_cases h0 : goTrim s = []
      · simp [h0]
      · rw [if_neg h0, if_neg h0]
        have hq : (goTrim s).length ≤ s.length := goTrim_length_le s
        by_cases hOr : (goContainsSub (goTrim s) orSepStr &&
            decide (2 ≤ (goSplitOn orSepStr (goTrim s)).length)) = true
        · rw [if_pos hOr, if_pos hOr]
          congr 1
          apply List.map_congr_left
          intro p hp
          have h2p : 2 ≤ (goSplitOn orSepStr (goTrim s)).length :=
            of_decide_eq_true ((Bool.and_eq_true _ _).mp hOr).2
          have hlen : p.length + orSepStr.length ≤ (goTrim s).length :=
            length_add_sep_of_mem_goSplitOnFuel orSepStr (goTrim s).length
              (goTrim s) p (Nat.le_refl _) h2p hp
          have htp : (goTrim p).length ≤ p.length := goTrim_length_le p
          rw [orSepStr_length] at hlen
          exact ih m (goTrim p) (by omega) (by omega)
        · rw [if_neg hOr, if_neg hOr]
          by_cases hAnd : (goContainsSub (goTrim s) andSepStr &&
              decide (2 ≤ (goSplitOn andSepStr (goTrim s)).length)) = true
          · rw [if_pos hAnd, if_pos hAnd]
            congr 1
            apply List.map_congr_left
            intro p hp
            have h2p : 2 ≤ (goSplitOn andSepStr (goTrim s)).length :=
              of_decide_eq_true ((Bool.and_eq_true _ _).mp hAnd).2
            have hlen : p.length + andSepStr.length ≤ (goTrim s).length :=
              length_add_sep_of_mem_goSplitOnFuel andSepStr (goTrim s).length
                (goTrim s) p (Nat.le_refl _) h2p hp
            have htp : (goTrim p).length ≤ p.length := goTrim_length_le p
            rw [andSepStr_length] at hlen
            exact ih m (goTrim p) (by omega) (by omega)
          · rw [if_neg hAnd, if_neg hAnd]
            by_cases hNot : notMarkStr.isPrefixOf (goTrim s) = true
            · rw [if_pos hNot, if_pos hNot]
              congr 1
              have h4 : notMarkStr.length ≤ (goTrim s).length :=
                isPrefixOf_length_le hNot
              rw [notMarkStr_length] at h4
              have hdl : (List.drop 4 (goTrim s)).length = (goTrim s).length - 4 :=
                List.length_drop 4 (goTrim s)
              have htp : (goTrim (List.drop 4 (goTrim s))).length ≤
                  (List.drop 4 (goTrim s)).length := goTrim_length_le _
              have hne : goTrim s ≠ [] := h0
              have hpos : 0 < (goTrim s).length := List.length_pos.mpr hne
              exact ih m _ (by omega) (by omega)
            · rw [if_neg hNot, if_neg hNot]

theorem parseLuceneQuery_blank {query : GoStr} (h : goTrim query = []) :
    parseLuceneQuery query = .null := by
  unfold parseLuceneQuery
  simp only [parseLuceneQueryFuel]
  rw [if_pos h]

theorem parseLuceneQuery_or_unfold {query : GoStr} (h0 : goTrim query ≠ [])
    (hOr : goContainsSub (goTrim query) orSepStr = true) :
    parseLuceneQuery query =
      leftAssocFold .or
        ((goSplitOn orSepStr (goTrim query)).map
          (fun p => parseLuceneQuery (goTrim p))) := by
  have h2p : 2 ≤ (goSplitOn orSepStr (goTrim query)).length :=
    two_le_goSplitOnFuel_of_contains orSepStr (by decide) (goTrim query).length
      (goTrim query) (Nat.le_refl _) hOr
  show parseLuceneQueryFuel (query.length + 1) query = _
  simp only [parseLuceneQueryFuel]
  rw [if_neg h0, if_pos (by simp [hOr, h2p])]
  congr 1
  apply List.map_congr_left
  intro p hp
  have hlen : p.length + orSepStr.length ≤ (goTrim query).length :=
    length_add_sep_of_mem_goSplitOnFuel orSepStr (goTrim query).length
      (goTrim query) p (Nat.le_refl _) h2p hp
  have htp : (goTrim p).length ≤ p.length := goTrim_length_le p
  have hq : (goTrim query).length ≤ query.length := goTrim_length_le query
  rw [orSepStr_length] at hlen
  exact parseLuceneQueryFuel_congr query.length ((goTrim p).length + 1)
    (goTrim p) (by omega) (by omega)

theorem parseLuceneQuery_and_unfold {query : GoStr} (h0 : goTrim query ≠ [])
    (hOr : goContainsSub (goTrim query) orSepStr = false)
    (hAnd : goContainsSub (goTrim query) andSepStr = true) :
    parseLuceneQuery query =
      leftAssocFold .and
        ((goSplitOn andSepStr (goTrim query)).map
          (fun p => parseLuceneQuery (goTrim p))) := by
  have h2p : 2 ≤ (goSplitOn andSepStr (goTrim query)).length :=
    two_le_goSplitOnFuel_of_contains andSepStr (by decide) (goTrim query).length
      (goTrim query) (Nat.le_refl _) hAnd
  show parseLuceneQueryFuel (query.length + 1) query = _
  simp only [parseLuceneQueryFuel]
  rw [if_neg h0, if_neg (by simp [hOr]), if_pos (by simp [hAnd, h2p])]
  congr 1
  apply List.map_congr_left
  intro p hp
  have hlen : p.length + andSepStr.length ≤ (goTrim query).length :=
    length_add_sep_of_mem_goSplitOnFuel andSepStr (goTrim query).length
      (goTrim query) p (Nat.le_refl _) h2p hp
  have htp : (goTrim p).length ≤ p.length := goTrim_length_le p
  have hq : (goTrim query).length ≤ query.length := goTrim_length_le query
  rw [andSepStr_length] at hlen
  exact parseLuceneQueryFuel_congr query.length ((goTrim p).length + 1)
    (goTrim p) (by omega) (by omega)

theorem parseLuceneQuery_not_unfold {query : GoStr} (h0 : goTrim query ≠ [])
    (hOr : goContainsSub (goTrim query) orSepStr = false)
    (hAnd : goContainsSub (goTrim query) andSepStr = false)
    (hNot : notMarkStr.isPrefixOf (goTrim query) = true) :
    parseLuceneQuery query =
      .not (parseLuceneQuery (goTrim (List.drop 4 (goTrim query)))) := by
  show parseLuceneQueryFuel (query.length + 1) query = _
  simp only [parseLuceneQueryFuel]
  rw [if_neg h0, if_neg (by simp [hOr]), if_neg (by simp [hAnd]), if_pos hNot]
  congr 1
  have h4 : notMarkStr.length ≤ (goTrim query).length := isPrefixOf_length_le hNot
  rw [notMarkStr_length] at h4
  have hdl : (List.drop 4 (goTrim query)).length = (goTrim query).length - 4 :=
    List.length_drop 4 (goTrim query)
  have htp : (goTrim (List.drop 4 (goTrim query))).length ≤
      (List.drop 4 (goTrim query)).length := goTrim_length_le _
  have hq : (goTrim query).length ≤ query.length := goTrim_length_le query
  exact parseLuceneQueryFuel_congr query.length
    ((goTrim (List.drop 4 (goTrim query))).length + 1) _ (by omega) (by omega)

theorem parseLuceneQuery_atom_unfold {query : GoStr} (h0 : goTrim query ≠ [])
    (hOr : goContainsSub (goTrim query) orSepStr = false)
    (hAnd : goContainsSub (goTrim query) andSepStr = false)
    (hNot : notMarkStr.isPrefixOf (goTrim query) = false) :
    parseLuceneQuery query = parseAtom (goTrim query) := by
  show parseLuceneQueryFuel (query.length + 1) query = _
  simp only [parseLuceneQueryFuel]
  rw [if_neg h0, if_neg (by simp [hOr]), if_neg (by simp [hAnd]),
    if_neg (by simp [hNot])]

theorem lookupField_mapInsert (m : List (GoStr × JSONValue)) (k : GoStr)
    (v : JSONValue) (q : GoStr) :
    lookupField (mapInsert m k v) q =
      if k = q then some v else lookupField m q := by
  induction m with
  | nil => simp [mapInsert, lookupField]
  | cons p rest ih =>
    obtain ⟨k0, v0⟩ := p
    simp only [mapInsert]
    by_cases h0 : k0 = k
    · subst h0
      by_cases hq : k0 = q
      · subst hq; simp [lookupField]
      · simp [lookupField, hq]
    · rw [if_neg h0]
      by_cases hq : k0 = q
      · subst hq
        have hkq : ¬ k = k0 := fun h => h0 h.symm
        simp [lookupField, hkq]
      · simp [lookupField, hq, ih]

theorem lookupField_filteredShownMap_aux (content : List (GoStr × JSONValue)) :
    ∀ (shown : List GoStr) (m : List (GoStr × JSONValue)) (q : GoStr),
      lookupField
        (shown.foldl
          (fun acc f =>
            match lookupField content f with
            | some v => mapInsert acc f v
            | none => acc)
          m) q =
      if q ∈ shown ∧ (lookupField content q).isSome then lookupField content q
      else lookupField m q := by
  intro shown
  induction shown with
  | nil => intro m q; simp
  | cons f rest ih =>
    intro m q
    simp only [List.foldl_cons]
    rw [ih]
    rcases hf : lookupField content f with _ | v
    · by_cases hmem : q ∈ rest ∧ (lookupField content q).isSome
      · rw [if_pos hmem, if_pos ⟨List.mem_cons_of_mem f hmem.1, hmem.2⟩]
      · rw [if_neg hmem, if_neg ?_]
        intro ⟨hq1, hq2⟩
        rcases List.mem_cons.mp hq1 with hq | hq
        · subst hq; rw [hf] at hq2; simp at hq2
        · exact hmem ⟨hq, hq2⟩
    · by_cases hmem : q ∈ rest ∧ (lookupField content q).isSome
      · rw [if_pos hmem, if_pos ⟨List.mem_cons_of_mem f hmem.1, hmem.2⟩]
      · rw [if_neg hmem, lookupField_mapInsert]
        by_cases hfq : f = q
        · subst hfq
          rw [if_pos rfl, if_pos ⟨List.mem_cons_self f rest, by simp [hf]⟩, hf]
        · rw [if_neg hfq, if_neg ?_]
          intro ⟨hq1, hq2⟩
          rcases List.mem_cons.mp hq1 with hq | hq
          · exact hfq hq.symm
          · exact hmem ⟨hq, hq2⟩

theorem lookupField_filteredShownMap (content : List (GoStr × JSONValue))
    (shown : List GoStr) (q : GoStr) :
    lookupField (filteredShownMap content shown) q =
      if q ∈ shown ∧ (lookupField content q).isSome then lookupField content q
      else none := by
  unfold filteredShownMap
  rw [lookupField_filteredShownMap_aux]
  simp [lookupField]

/-- C1: for every query string, the compiler splits top-down in the order
`" OR "` (left-associative Or over all operands, each compiled recursively),
then `" AND "` likewise, then a `"NOT "` prefix wrapping the recursively
compiled remainder in Not, then atom classification; consequently OR has the
lowest precedence and AND binds tighter, e.g. `a AND b OR c` compiles to
`Or(And(a,b), c)`. -/
theorem parseLuceneQuery_topdown_split :
    (∀ query : GoStr, goTrim query ≠ [] →
      goContainsSub (goTrim query) orSepStr = true →
      parseLuceneQuery query =
        leftAssocFold .or
          ((goSplitOn orSepStr (goTrim query)).map
            (fun p => parseLuceneQuery (goTrim p)))) ∧
    (∀ query : GoStr, goTrim query ≠ [] →
      goContainsSub (goTrim query) orSepStr = false →
      goContainsSub (goTrim query) andSepStr = true →
      parseLuceneQuery query =
        leftAssocFold .and
          ((goSplitOn andSepStr (goTrim query)).map
            (fun p => parseLuceneQuery (goTrim p)))) ∧
    (∀ query : GoStr, goTrim query ≠ [] →
      goContainsSub (goTrim query) orSepStr = false →
      goContainsSub (goTrim query) andSepStr = false →
      notMarkStr.isPrefixOf (goTrim query) = true →
      parseLuceneQuery query =
        .not (parseLuceneQuery (goTrim (List.drop 4 (goTrim query))))) ∧
    (∀ query : GoStr, goTrim query ≠ [] →
      goContainsSub (goTrim query) orSepStr = false →
      goContainsSub (goTrim query) andSepStr = false →
      notMarkStr.isPrefixOf (goTrim query) = false →
      parseLuceneQuery query = parseAtom (goTrim query)) ∧
    parseLuceneQuery (("a AND b OR c").toList) =
      .or (.and (.term [] (("a").toList)) (.term [] (("b").toList)))
        (.term [] (("c").toList)) :=
  ⟨fun _ h1 h2 => parseLuceneQuery_or_unfold h1 h2,
    fun _ h1 h2 h3 => parseLuceneQuery_and_unfold h1 h2 h3,
    fun _ h1 h2 h3 h4 => parseLuceneQuery_not_unfold h1 h2 h3 h4,
    fun _ h1 h2 h3 h4 => parseLuceneQuery_atom_unfold h1 h2 h3 h4,
    by decide⟩

/-- Witness for C1: the OR-split clause applied to the concrete query
`x OR y`, its hypotheses discharged by computation. -/
theorem parseLuceneQuery_topdown_split_witness :
    parseLuceneQuery (("x OR y").toList) =
      leftAssocFold .or
        ((goSplitOn orSepStr (goTrim (("x OR y").toList))).map
          (fun p => parseLuceneQuery (goTrim p))) :=
  parseLuceneQuery_topdown_split.1 (("x OR y").toList) (by decide) (by decide)

/-- C6: a `?` in an atom's value makes the compiler emit a Wildcard node, but
the matcher gives `?` no single-character meaning: a `*`-free pattern is
matched by plain substring containment (`?` taken literally), so `f:a?c` does
not match a record whose `f` value is `abc`, under either case flag. -/
theorem wildcard_question_not_honored :
    (∀ (text p : GoStr), p.contains '*' = false →
      simpleWildcardMatch text p = goContainsSub text p) ∧
    parseLuceneQuery (("f:a?c").toList) =
      .wildcard (("f").toList) (("a?c").toList) ∧
    lookupField recABC.content (("f").toList) =
      some (.str (("abc").toList)) ∧
    evaluateLuceneQuery (.wildcard (("f").toList) (("a?c").toList))
      recABC true = false ∧
    evaluateLuceneQuery (.wildcard (("f").toList) (("a?c").toList))
      recABC false = false := by
  refine ⟨?_, by decide, by decide, by decide, by decide⟩
  intro text p hstar
  have hne : p ≠ ['*'] := by
    rintro rfl
    simp at hstar
  have hmem : '*' ∉ p := by
    intro hm
    have h2 : p.contains '*' = true := List.elem_iff.mpr hm
    rw [hstar] at h2
    cases h2
  have hpre : ['*'].isPrefixOf p = false := by
    cases p with
    | nil => rfl
    | cons c rest =>
      simp only [List.isPrefixOf, List.isPrefixOf_nil_left, Bool.and_true]
      have : ¬ '*' = c := fun h => hmem (h ▸ List.mem_cons_self c rest)
      simp [beq_eq_false_iff_ne, this]
  have hprer : ['*'].isPrefixOf p.reverse = false := by
    rcases hrev : p.reverse with _ | ⟨c, t⟩
    · rfl
    · simp only [List.isPrefixOf, List.isPrefixOf_nil_left, Bool.and_true]
      have hcm : c ∈ p.reverse := by rw [hrev]; exact List.mem_cons_self c t
      have : ¬ '*' = c := by
        intro h
        exact hmem (List.mem_reverse.mp (h ▸ hcm))
      simp [beq_eq_false_iff_ne, this]
  unfold simpleWildcardMatch
  rw [if_neg hne, hstar]
  by_cases hq : p.contains '?' = true
  · rw [hq]
    have hfilter : p.filter (fun c => !decide (c = '*')) = p := by
      apply List.filter_eq_self.mpr
      intro a ha
      simp only [Bool.not_eq_true', decide_eq_false_iff_not]
      intro h
      exact hmem (h ▸ ha)
    simp [hpre, hprer]
    rw [hfilter]
  · rw [Bool.not_eq_true] at hq
    rw [hq]
    simp

/-- Witness for C6: the containment clause at the concrete `*`-free pattern
`a?c` and text `abc`. -/
theorem wildcard_question_not_honored_witness :
    simpleWildcardMatch (("abc").toList) (("a?c").toList) =
      goContainsSub (("abc").toList) (("a?c").toList) :=
  wildcard_question_not_honored.1 (("abc").toList) (("a?c").toList) (by decide)

/-- C7: operator detection is not quote-protected: `name:"a AND b"` is split
at the `" AND "` inside the quotes into `And(field name «"a», term «b"»)`,
and in particular no Phrase node is produced for it. -/
theorem quoted_phrase_not_protected :
    parseLuceneQuery (("name:\"a AND b\"").toList) =
      .and (.field (("name").toList) (("\"a").toList))
        (.term [] (("b\"").toList)) ∧
    ∀ f v : GoStr, parseLuceneQuery (("name:\"a AND b\"").toList) ≠ .phrase f v := by
  have heq : parseLuceneQuery (("name:\"a AND b\"").toList) =
      .and (.field (("name").toList) (("\"a").toList))
        (.term [] (("b\"").toList)) := by decide
  exact ⟨heq, fun f v h => by rw [heq] at h; exact LuceneQuery.noConfusion h⟩

/-- C8: a blank (empty or whitespace-only) query makes `SearchRecords` return
the empty page — no records, `totalMatches = 0` — for every store, before any
of the compile/scan machinery runs. -/
theorem searchRecords_blank_query (store : List JSONRecord)
    (opts : SearchOptions) (h : goTrim opts.query = []) :
    searchRecords store opts =
      ⟨[], opts.offset, opts.limit, 0, 0, false, opts.query⟩ := by
  unfold searchRecords
  rw [if_pos h]

/-- Witness for C8: the whitespace query `"  "` over a one-record store. -/
theorem searchRecords_blank_query_witness :
    searchRecords [recJohnDoe] ⟨("  ").toList, true, -3, 7, true, []⟩ =
      ⟨[], -3, 7, 0, 0, false, ("  ").toList⟩ :=
  searchRecords_blank_query [recJohnDoe]
    ⟨("  ").toList, true, -3, 7, true, []⟩ (by decide)

/-- C9: `GetRecords` with `offset ≥ totalCount` returns a page with zero
records and `hasMore = false`, for any limit (and any page-size default),
rather than failing. -/
theorem getRecords_offset_past_end (store : List JSONRecord)
    (pageSize offset limit : Int) (h : (store.length : Int) ≤ offset) :
    (getRecords store pageSize offset limit).records = [] ∧
    (getRecords store pageSize offset limit).hasMore = false := by
  have h0 : ¬ offset < 0 := by
    have hnn : (0 : Int) ≤ (store.length : Int) := Int.ofNat_nonneg _
    omega
  unfold getRecords
  rw [if_neg h0]
  rw [if_pos h]
  exact ⟨rfl, rfl⟩

/-- Witness for C9: offset 5 over a one-record store, limit 0. -/
theorem getRecords_offset_past_end_witness :
    (getRecords [recJohnDoe] 50 5 0).records = [] ∧
    (getRecords [recJohnDoe] 50 5 0).hasMore = false :=
  getRecords_offset_past_end [recJohnDoe] 50 5 0 (by decide)

/-- Counterexample for C10: on a store holding only line 1, looking up line 2
fails with the "Record not found" message but wraps the same `invalidLineNum`
sentinel as the `n ≤ 0` failure — there is no distinct RecordNotFound error in
the code (src/app.go:113-118 defines no such sentinel). -/
theorem getRecordByLineNumber_sentinel_cex :
    getRecordByLineNumber [recJohnDoe] 2 =
      .error ⟨("Record not found at specified line number").toList, 2,
        .invalidLineNum⟩ ∧
    getRecordByLineNumber [recJohnDoe] 0 =
      .error ⟨("Line number must be greater than 0").toList, 0,
        .invalidLineNum⟩ :=
  ⟨rfl, rfl⟩

/-- C10 (amended): `GetRecordByLineNumber` fails before any lookup when
`n ≤ 0`; when `n > 0` and no stored record carries line `n` it fails with a
"Record not found" message that wraps the same `ErrInvalidLineNum` sentinel
(distinct only in message text, not in sentinel); when some stored record
carries line `n`, a record with that line number is returned. -/
theorem getRecordByLineNumber_semantics (store : List JSONRecord) (n : Int) :
    (n ≤ 0 → getRecordByLineNumber store n =
      .error ⟨("Line number must be greater than 0").toList, n,
        .invalidLineNum⟩) ∧
    (0 < n → (∀ r ∈ store, r.lineNumber ≠ n) →
      getRecordByLineNumber store n =
        .error ⟨("Record not found at specified line number").toList, n,
          .invalidLineNum⟩) ∧
    (0 < n → ∀ r : JSONRecord, r ∈ store → r.lineNumber = n →
      ∃ r' ∈ store, r'.lineNumber = n ∧
        getRecordByLineNumber store n = .ok r') := by
  refine ⟨?_, ?_, ?_⟩
  · intro h
    unfold getRecordByLineNumber
    rw [if_pos h]
  · intro hpos hnone
    unfold getRecordByLineNumber
    rw [if_neg (by omega)]
    have hfind : store.find? (fun r => r.lineNumber = n) = none := by
      apply List.find?_eq_none.mpr
      intro x hx
      simp only [decide_eq_true_eq]
      exact hnone x hx
    rw [hfind]
  · intro hpos r hr hln
    rcases hfind : store.find? (fun rr => rr.lineNumber = n) with _ | r'
    · exfalso
      have := List.find?_eq_none.mp hfind r hr
      simp only [decide_eq_true_eq] at this
      exact this hln
    · refine ⟨r', List.mem_of_find?_eq_some hfind, ?_, ?_⟩
      · have := List.find?_some hfind
        simpa using this
      · unfold getRecordByLineNumber
        rw [if_neg (by omega), hfind]

/-- Witness for C10: the three clauses exercised on the one-record store. -/
theorem getRecordByLineNumber_semantics_witness :
    getRecordByLineNumber [recJohnDoe] 0 =
      .error ⟨("Line number must be greater than 0").toList, 0,
        .invalidLineNum⟩ ∧
    getRecordByLineNumber [recJohnDoe] 2 =
      .error ⟨("Record not found at specified line number").toList, 2,
        .invalidLineNum⟩ ∧
    ∃ r' ∈ [recJohnDoe], r'.lineNumber = 1 ∧
      getRecordByLineNumber [recJohnDoe] 1 = .ok r' :=
  ⟨(getRecordByLineNumber_semantics [recJohnDoe] 0).1 (by decide),
    (getRecordByLineNumber_semantics [recJohnDoe] 2).2.1 (by decide)
      (by decide),
    (getRecordByLineNumber_semantics [recJohnDoe] 1).2.2 (by decide)
      recJohnDoe (List.mem_cons_self _ _) (by decide)⟩

/-- Counterexample for C4: among three valid records a field `x` occurring in
only one of them (one third, below 50%) is still reported common, because the
threshold is the integer division `len(records) / 2 = 1`. -/
theorem getCommonFields_below_half_cex :
    ("x").toList ∈ getCommonFields cfRecords ∧
    2 * countField cfRecords (("x").toList) < cfRecords.length := by decide

/-- C4 (amended): `commonFields` is exactly the set of field names that occur
at least once and whose occurrence count reaches `floor(validRecordCount / 2)`
— for an odd record count this admits fields present in slightly under half
of the records, so it is not "at least 50%". -/
theorem getCommonFields_floor_threshold (records : List JSONRecord)
    (f : GoStr) :
    f ∈ getCommonFields records ↔
      f ∈ fieldOccurrences records ∧
        records.length / 2 ≤ countField records f := by
  simp [getCommonFields, List.mem_filter, List.mem_dedup]

/-- Counterexample for C3: on the record parsed from `{"b":2,"a":1}` with
`show = [a, b]`, the projected output is `{"a":1,"b":2}` — the keys come out
in sorted order (as `json.Marshal` writes map keys), not in the record's
original key order `b, a`. -/
theorem getDisplayJSON_key_order_cex :
    getDisplayJSON recBA [("a").toList, ("b").toList] [] =
      ("\x7b\"a\":1,\"b\":2\x7d").toList ∧
    recBA.content.map Prod.fst = [("b").toList, ("a").toList] ∧
    getDisplayJSON recBA [("a").toList, ("b").toList] [] ≠
      ("\x7b\"b\":2,\"a\":1\x7d").toList := by decide

/-- C3 (amended): with a non-empty `show` list the hide set is ignored and the
output carries exactly the content entries whose keys are in `show` (the
lookup characterization below), serialized with keys in ascending
(lexicographic) order rather than the record's original key order; in
particular `show=[a]`, `hide=[b]` on `{"a":1,"b":2,"c":3}` yields `{"a":1}`. -/
theorem getDisplayJSON_show_semantics (record : JSONRecord)
    (shown hidden : List GoStr) :
    (shown ≠ [] → getDisplayJSON record shown hidden =
      getDisplayJSON record shown []) ∧
    (shown ≠ [] → getDisplayJSON record shown hidden =
      marshalObj (filteredShownMap record.content shown)) ∧
    (∀ k, lookupField (filteredShownMap record.content shown) k =
      if k ∈ shown ∧ (lookupField record.content k).isSome
      then lookupField record.content k else none) ∧
    getDisplayJSON recNums3 [("a").toList] [("b").toList] =
      ("\x7b\"a\":1\x7d").toList := by
  have key : ∀ hid : List GoStr, shown ≠ [] →
      getDisplayJSON record shown hid =
        marshalObj (filteredShownMap record.content shown) := by
    intro hid hne
    have hlen : ¬ shown.length = 0 := fun h => hne (List.length_eq_zero.mp h)
    unfold getDisplayJSON
    rw [if_neg (fun hand => hlen hand.1), if_pos (Nat.pos_of_ne_zero hlen)]
  refine ⟨fun hne => ?_, fun hne => key hidden hne,
    fun k => lookupField_filteredShownMap record.content shown k, by decide⟩
  rw [key hidden hne, key [] hne]

/-- Witness for C3: the hide-ignored clause applied at the concrete example
record with `show=[a]`, `hide=[b]`. -/
theorem getDisplayJSON_show_semantics_witness :
    getDisplayJSON recNums3 [("a").toList] [("b").toList] =
      getDisplayJSON recNums3 [("a").toList] [] :=
  (getDisplayJSON_show_semantics recNums3 [("a").toList] [("b").toList]).1
    (by decide)

/-- Counterexample for C5: the query `" "` (one space) is a non-empty string
whose compilation yields the nil tree, which evaluates to false on every
record — yet the export filter includes the record `{"a": 1}`, via the simple
substring fallback, so export inclusion is not equivalent to "the compiled
query evaluates to true with caseSensitive = false". -/
theorem getAllRecordsIncluded_whitespace_cex :
    ([' '] : GoStr) ≠ [] ∧
    parseLuceneQuery [' '] = .null ∧
    getAllRecordsIncluded [' '] recSpace = true ∧
    evaluateLuceneQuery (parseLuceneQuery [' ']) recSpace false = false := by
  decide

/-- C5 (amended): the export path hardcodes `caseSensitive = false`: when a
non-empty query compiles to a non-nil tree, a record is exported iff that tree
evaluates to true case-insensitively; when compilation yields nil
(whitespace-only query) the case-insensitive simple substring fallback decides
inclusion instead. Export can therefore differ from an on-screen Lucene search
with `caseSensitive = true`: `name:John` exports `{"name":"john"}` while the
case-sensitive search matches nothing. -/
theorem getAllRecordsIncluded_semantics :
    (∀ (q : GoStr) (r : JSONRecord), q ≠ [] → parseLuceneQuery q ≠ .null →
      getAllRecordsIncluded q r =
        evaluateLuceneQuery (parseLuceneQuery q) r false) ∧
    (∀ (q : GoStr) (r : JSONRecord), q ≠ [] → parseLuceneQuery q = .null →
      getAllRecordsIncluded q r = recordMatches r q false) ∧
    getAllRecordsIncluded (("name:John").toList) recLowJohn = true ∧
    searchMatchingRecords [recLowJohn]
      ⟨("name:John").toList, true, 0, 50, true, []⟩ = [] := by
  refine ⟨?_, ?_, by decide, by decide⟩
  · intro q r hq hnull
    unfold getAllRecordsIncluded
    rw [if_pos hq]
    cases hp : parseLuceneQuery q
    case null => exact absurd hp hnull
    all_goals rfl
  · intro q r hq hnull
    unfold getAllRecordsIncluded
    rw [if_pos hq, hnull]

/-- Witness for C5: the non-nil clause at the concrete query `name:John` and
the record `{"name":"john"}`. -/
theorem getAllRecordsIncluded_semantics_witness :
    getAllRecordsIncluded (("name:John").toList) recLowJohn =
      evaluateLuceneQuery (parseLuceneQuery (("name:John").toList))
        recLowJohn false :=
  getAllRecordsIncluded_semantics.1 (("name:John").toList) recLowJohn
    (by decide) (by decide)

/-- Counterexample for C2: the record `{"a":null}` has the key `a` present,
and the case-folded containment test of the empty search value against the
stringified value succeeds — but a field leaf on `a` evaluates to false: for a
JSON null the evaluator short-circuits before stringifying
(src/app.go:1314-1316), so "a present key is stringified and tested" fails. -/
theorem evaluateLuceneQuery_null_value_cex :
    lookupField recNullA.content (("a").toList) = some JSONValue.null ∧
    evaluateLuceneQuery (.field (("a").toList) []) recNullA false = false ∧
    goContainsSub (goCaseFold false (goFormatV JSONValue.null))
      (goCaseFold false []) = true := by
  decide

/-- C2 (amended): for every record and case flag: the nil query evaluates to
false; And/Or/Not are conjunction, disjunction, negation; for leaves carrying
a field name an absent key evaluates to false, and a present key is
stringified and tested — by case-folded containment for field/term leaves
(except that a JSON null value short-circuits to false before
stringification), by case-folded containment for phrase leaves and by the
wildcard matcher for wildcard leaves (except that a value whose stringified
form is empty short-circuits to false). -/
theorem evaluateLuceneQuery_semantics (r : JSONRecord) (cs : Bool) :
    evaluateLuceneQuery .null r cs = false ∧
    (∀ l rr : LuceneQuery, evaluateLuceneQuery (.and l rr) r cs =
      (evaluateLuceneQuery l r cs && evaluateLuceneQuery rr r cs)) ∧
    (∀ l rr : LuceneQuery, evaluateLuceneQuery (.or l rr) r cs =
      (evaluateLuceneQuery l r cs || evaluateLuceneQuery rr r cs)) ∧
    (∀ t : LuceneQuery, evaluateLuceneQuery (.not t) r cs =
      !evaluateLuceneQuery t r cs) ∧
    (∀ f v : GoStr, lookupField r.content f = none →
      evaluateLuceneQuery (.field f v) r cs = false) ∧
    (∀ (f v : GoStr) (fv : JSONValue), lookupField r.content f = some fv →
      fv ≠ .null →
      evaluateLuceneQuery (.field f v) r cs =
        goContainsSub (goCaseFold cs (goFormatV fv)) (goCaseFold cs v)) ∧
    (∀ f v : GoStr, lookupField r.content f = some .null →
      evaluateLuceneQuery (.field f v) r cs = false) ∧
    (∀ f v : GoStr, f ≠ [] → lookupField r.content f = none →
      evaluateLuceneQuery (.phrase f v) r cs = false) ∧
    (∀ (f v : GoStr) (fv : JSONValue), f ≠ [] →
      lookupField r.content f = some fv → goFormatV fv ≠ [] →
      evaluateLuceneQuery (.phrase f v) r cs =
        goContainsSub (goCaseFold cs (goFormatV fv)) (goCaseFold cs v)) ∧
    (∀ (f v : GoStr) (fv : JSONValue), f ≠ [] →
      lookupField r.content f = some fv → goFormatV fv = [] →
      evaluateLuceneQuery (.phrase f v) r cs = false) ∧
    (∀ f v : GoStr, f ≠ [] → lookupField r.content f = none →
      evaluateLuceneQuery (.wildcard f v) r cs = false) ∧
    (∀ (f v : GoStr) (fv : JSONValue), f ≠ [] →
      lookupField r.content f = some fv → goFormatV fv ≠ [] →
      evaluateLuceneQuery (.wildcard f v) r cs =
        simpleWildcardMatch (goCaseFold cs (goFormatV fv))
          (goCaseFold cs v)) ∧
    (∀ (f v : GoStr) (fv : JSONValue), f ≠ [] →
      lookupField r.content f = some fv → goFormatV fv = [] →
      evaluateLuceneQuery (.wildcard f v) r cs = false) ∧
    (∀ f v : GoStr, f ≠ [] → lookupField r.content f = none →
      evaluateLuceneQuery (.term f v) r cs = false) ∧
    (∀ (f v : GoStr) (fv : JSONValue), f ≠ [] →
      lookupField r.content f = some fv → fv ≠ .null →
      evaluateLuceneQuery (.term f v) r cs =
        goContainsSub (goCaseFold cs (goFormatV fv)) (goCaseFold cs v)) ∧
    (∀ f v : GoStr, f ≠ [] → lookupField r.content f = some .null →
      evaluateLuceneQuery (.term f v) r cs = false) := by
  refine ⟨rfl, fun l rr => rfl, fun l rr => rfl, fun t => rfl,
    ?_, ?_, ?_, ?_, ?_, ?_, ?_, ?_, ?_, ?_, ?_, ?_⟩
  · intro f v h
    simp [evaluateLuceneQuery, h]
  · intro f v fv h hne
    simp only [evaluateLuceneQuery, h]
    cases fv with
    | null => exact absurd rfl hne
    | str s => simp [matchFieldValue, goCaseFold]
    | num n => simp [matchFieldValue, goCaseFold]
    | boolean b => cases b <;> simp [matchFieldValue, goCaseFold]
  · intro f v h
    simp [evaluateLuceneQuery, h, matchFieldValue]
  · intro f v hf h
    simp [evaluateLuceneQuery, hf, h]
  · intro f v fv hf h hne
    simp [evaluateLuceneQuery, hf, h, matchPhrase, hne, goCaseFold]
  · intro f v fv hf h hfe
    simp [evaluateLuceneQuery, hf, h, matchPhrase, hfe]
  · intro f v hf h
    simp [evaluateLuceneQuery, hf, h]
  · intro f v fv hf h hne
    simp [evaluateLuceneQuery, hf, h, matchWildcard, hne, goCaseFold]
  · intro f v fv hf h hfe
    simp [evaluateLuceneQuery, hf, h, matchWildcard, hfe]
  · intro f v hf h
    simp [evaluateLuceneQuery, hf, h]
  · intro f v fv hf h hne
    simp only [evaluateLuceneQuery, h, if_pos hf]
    cases fv with
    | null => exact absurd rfl hne
    | str s => simp [matchFieldValue, goCaseFold]
    | num n => simp [matchFieldValue, goCaseFold]
    | boolean b => cases b <;> simp [matchFieldValue, goCaseFold]
  · intro f v hf h
    simp [evaluateLuceneQuery, hf, h, matchFieldValue]

/-- Witness for C2: the field-leaf clause at the concrete record
`{"name":"john"}`, key present with a non-null value, case-insensitively. -/
theorem evaluateLuceneQuery_semantics_witness :
    evaluateLuceneQuery (.field (("name").toList) (("John").toList))
      recLowJohn false =
      goContainsSub (goCaseFold false (goFormatV (.str (("john").toList))))
        (goCaseFold false (("John").toList)) :=
  (evaluateLuceneQuery_semantics recLowJohn false).2.2.2.2.2.1
    (("name").toList) (("John").toList) (.str (("john").toList))
    (by decide) (by decide)
